import Mathlib

/-!
Shallow embedding of `ConsumerProducerTask.cpp` (a bounded producer/consumer
queue plus a first-arrival result table) and proofs about it.

Modelling conventions:
- `std::queue<unsigned int>` is a `List Nat`, head of the list = front of the
  queue; `push` appends at the tail, `front`/`pop` work on the head.
- The cancellable condition-variable wait
  `cv.wait(lock, st, pred)` completes exactly when `pred` holds or the stop
  token is in the stop-requested state; it returns the value of `pred` at that
  moment.  We model one completed call of a queue operation as a function of
  the queue contents and of the boolean `stop` = `st.stop_requested()` observed
  when the wait completes; the value `none` models a call that is still
  blocked (neither condition holds).  Crucially, the C++ code discards the
  boolean returned by `wait` and proceeds unconditionally, and the model
  reflects precisely that.
- Machine integers (`unsigned int`, `unsigned long`) stay well inside their
  ranges here (values are in `[1, N]`, `N ≤ RAND_MAX`, the counter is bounded
  by `N`, sizes by 1000), so they are modelled as `Nat` without wrap-around.
- Time points of `high_resolution_clock` are abstract `Nat` instants passed in
  as the `now` argument of each call.
-/

/-- `TRandomData`: one slot of the result table.  The C++ default constructor
value-initializes all three members to zero. -/
structure TRandomData where
  Number : Nat
  TimeToGenerate : Nat
  Order : Nat
deriving Repr, DecidableEq

instance : Inhabited TRandomData := ⟨⟨0, 0, 0⟩⟩

/-- `TIntegerQueue::MaxQueueSize`. -/
def MaxQueueSize : Nat := 1000

/-- Outcome of one completed `GetFromQueue` call: either an element is
returned together with the remaining queue, or the code reached
`Queue.front()` / `Queue.pop()` on an empty queue (undefined behavior in
C++, reachable when the stop token fires while the queue is empty). -/
inductive PopOutcome where
  | ok (element : Nat) (rest : List Nat)
  | emptyFront
deriving Repr, DecidableEq

/-- `TIntegerQueue::SaveIntoQueue(element, st)`:

    QueueNotFullCond.wait(lock, st, [this]{ return Queue.size() < MaxQueueSize; });
    Queue.push(element);

The wait completes when the queue has room or stop is requested; its boolean
result is discarded, so the push is unconditional once the wait completes.
`none` = the call is still blocked. -/
def SaveIntoQueue (q : List Nat) (element : Nat) (stop : Bool) : Option (List Nat) :=
  if q.length < MaxQueueSize ∨ stop = true then some (q ++ [element]) else none

/-- `TIntegerQueue::GetFromQueue(st)`:

    QueueNotEmptyCond.wait(lock, st, [this]{ return !Queue.empty(); });
    unsigned int element = Queue.front();
    Queue.pop();

The wait completes when the queue is non-empty or stop is requested; its
boolean result is discarded, so `front`/`pop` run unconditionally once the
wait completes (on an empty queue that is `emptyFront`).  `none` = the call is
still blocked. -/
def GetFromQueue (q : List Nat) (stop : Bool) : Option PopOutcome :=
  if q ≠ [] ∨ stop = true then
    match q with
    | [] => some PopOutcome.emptyFront
    | x :: rest => some (PopOutcome.ok x rest)
  else none

/-- `TStorage`: the result table.  `stopRequested` is the observable state of
the owned `std::stop_source`.  `Start` is the timing baseline (a time point,
modelled as a `Nat` instant). -/
structure TStorage where
  Storage : List TRandomData
  StorageSize : Nat
  Counter : Nat
  stopRequested : Bool
  Start : Nat
  DigitsInN : Nat
deriving Repr, DecidableEq

/-- `TStorage::TStorage(storage_size)`: `Storage(storage_size)` builds
`storage_size` value-initialized slots; `Start` is set to the current clock
value; `DigitsInN = log10(storage_size) + 1.0` truncated to int, which for
`storage_size ≥ 1` equals `Nat.log 10 storage_size + 1` (the constructor
comment says the size is expected to be in `[1, RAND_MAX]`; it performs no
validation).  No failure path exists: every size yields a table. -/
def TStorage.init (storage_size : Nat) (start : Nat) : TStorage :=
  { Storage := List.replicate storage_size default
    StorageSize := storage_size
    Counter := 0
    stopRequested := false
    Start := start
    DigitsInN := Nat.log 10 storage_size + 1 }

/-- `Storage[index]` for an in-bounds `index` (out of bounds never happens in
the guarded code path; the default is the value-initialized slot). -/
def TStorage.slot (s : TStorage) (i : Nat) : TRandomData :=
  s.Storage.getD i default

/-- The body of `TStorage::ProcessNext` when the slot test
`Storage[index].Number == 0` succeeds: fill the slot with
`(element, ++Counter, end - Start)` and reset the baseline `Start = end`. -/
def TStorage.fill (s : TStorage) (element : Nat) (now : Nat) : TStorage :=
  { s with
    Storage := s.Storage.set (element - 1)
      { Number := element, TimeToGenerate := now - s.Start, Order := s.Counter + 1 }
    Counter := s.Counter + 1
    Start := now }

/-- The tail of `TStorage::ProcessNext`:
`if (Counter == StorageSize) StopSource.request_stop();`
(`request_stop` on an already-requested source is a no-op). -/
def TStorage.applyStop (s : TStorage) : TStorage :=
  if s.Counter = s.StorageSize then { s with stopRequested := true } else s

/-- `TStorage::ProcessNext(element)`: under the lock,
if `element > 0 && element <= StorageSize` then (fill the slot if its
`Number` is still 0, else do nothing) and then request stop when
`Counter == StorageSize`; out-of-range elements leave the state untouched. -/
def TStorage.ProcessNext (s : TStorage) (element : Nat) (now : Nat) : TStorage :=
  if 0 < element ∧ element ≤ s.StorageSize then
    TStorage.applyStop
      (if (s.slot (element - 1)).Number = 0 then s.fill element now else s)
  else s

/-- A sequential run of consumer calls `ProcessNext` on inputs
`(element, now)` (this is the single-consumer view; every `ProcessNext` body
runs under the table's mutex, so any concurrent history is some such
sequence). -/
def TStorage.run (s : TStorage) (inputs : List (Nat × Nat)) : TStorage :=
  inputs.foldl (fun st p => st.ProcessNext p.1 p.2) s

/-- `RAND_MAX` of the target platform (glibc / MSVC use 2147483647 and 32767
respectively; the repository is a Visual Studio project, MSVC value kept
symbolic would change nothing below — only the sign test matters — we use the
glibc value). -/
def RAND_MAX : Int := 2147483647

/-- Outcome of `main`'s argument handling: either the argument is rejected
before anything is constructed, or the queue/storage/randomizer are
constructed and worker threads run. -/
inductive MainOutcome where
  | badArgument
  | run (storage : TStorage)
deriving Repr

/-- `main`'s argument check and construction order (lines 170–181):

    if (element_number <= 0 || element_number > RAND_MAX) { ... return 0; }
    TIntegerQueue queue;
    TStorage storage(element_number);
    ...

Validation happens in `main`, before `TStorage` (or the randomizer) is
constructed and before any thread is spawned. -/
def mainCheck (element_number : Int) (start : Nat) : MainOutcome :=
  if element_number ≤ 0 ∨ RAND_MAX < element_number then MainOutcome.badArgument
  else MainOutcome.run (TStorage.init element_number.toNat start)

/-! ### Small facts about slots and the pieces of `ProcessNext` -/

theorem TStorage.slot_fill_self {s : TStorage} {e now : Nat}
    (hlen : e - 1 < s.Storage.length) :
    (s.fill e now).slot (e - 1)
      = { Number := e, TimeToGenerate := now - s.Start, Order := s.Counter + 1 } := by
  simp [TStorage.fill, TStorage.slot, List.getD, List.getElem?_set, hlen]

theorem TStorage.slot_fill_other {s : TStorage} {e now i : Nat} (h : e - 1 ≠ i) :
    (s.fill e now).slot i = s.slot i := by
  simp [TStorage.fill, TStorage.slot, List.getD, List.getElem?_set, h]

theorem TStorage.applyStop_Storage (s : TStorage) : s.applyStop.Storage = s.Storage := by
  unfold TStorage.applyStop; split <;> rfl

theorem TStorage.applyStop_StorageSize (s : TStorage) :
    s.applyStop.StorageSize = s.StorageSize := by
  unfold TStorage.applyStop; split <;> rfl

theorem TStorage.applyStop_Counter (s : TStorage) : s.applyStop.Counter = s.Counter := by
  unfold TStorage.applyStop; split <;> rfl

theorem TStorage.applyStop_slot (s : TStorage) (i : Nat) :
    s.applyStop.slot i = s.slot i := by
  unfold TStorage.slot
  rw [TStorage.applyStop_Storage]

theorem TStorage.applyStop_stop_mono {s : TStorage} (h : s.stopRequested = true) :
    s.applyStop.stopRequested = true := by
  unfold TStorage.applyStop; split
  · rfl
  · exact h

theorem TStorage.fill_stopRequested (s : TStorage) (e now : Nat) :
    (s.fill e now).stopRequested = s.stopRequested := rfl

theorem TStorage.fill_StorageSize (s : TStorage) (e now : Nat) :
    (s.fill e now).StorageSize = s.StorageSize := rfl

theorem TStorage.fill_Counter (s : TStorage) (e now : Nat) :
    (s.fill e now).Counter = s.Counter + 1 := rfl

theorem TStorage.fill_length (s : TStorage) (e now : Nat) :
    (s.fill e now).Storage.length = s.Storage.length := by
  simp [TStorage.fill]

theorem TStorage.applyStop_stopRequested_of_full {s : TStorage}
    (h : s.Counter = s.StorageSize) : s.applyStop.stopRequested = true := by
  unfold TStorage.applyStop
  rw [if_pos h]

theorem TStorage.applyStop_stopRequested_of_not_full {s : TStorage}
    (h : ¬ s.Counter = s.StorageSize) : s.applyStop.stopRequested = s.stopRequested := by
  unfold TStorage.applyStop
  rw [if_neg h]

theorem TStorage.processNext_StorageSize (s : TStorage) (e now : Nat) :
    (s.ProcessNext e now).StorageSize = s.StorageSize := by
  unfold TStorage.ProcessNext
  split
  · rw [TStorage.applyStop_StorageSize]
    split
    · rw [TStorage.fill_StorageSize]
    · rfl
  · rfl

theorem TStorage.run_StorageSize (s : TStorage) (l : List (Nat × Nat)) :
    (s.run l).StorageSize = s.StorageSize := by
  induction l generalizing s with
  | nil => rfl
  | cons p rest ih =>
      show ((s.ProcessNext p.1 p.2).run rest).StorageSize = s.StorageSize
      rw [ih, TStorage.processNext_StorageSize]

theorem TStorage.processNext_stop_mono {s : TStorage} (h : s.stopRequested = true)
    (e now : Nat) : (s.ProcessNext e now).stopRequested = true := by
  unfold TStorage.ProcessNext
  split
  · apply TStorage.applyStop_stop_mono
    split
    · rw [TStorage.fill_stopRequested]; exact h
    · exact h
  · exact h

theorem TStorage.run_stop_mono {s : TStorage} (h : s.stopRequested = true)
    (l : List (Nat × Nat)) : (s.run l).stopRequested = true := by
  induction l generalizing s with
  | nil => exact h
  | cons p rest ih =>
      exact ih (TStorage.processNext_stop_mono h p.1 p.2)

theorem TStorage.processNext_preserves_filled {s : TStorage} {i : Nat}
    (hfilled : (s.slot i).Number ≠ 0) (e now : Nat) :
    (s.ProcessNext e now).slot i = s.slot i := by
  unfold TStorage.ProcessNext
  split
  · rw [TStorage.applyStop_slot]
    split
    · next hempty =>
        have hne : e - 1 ≠ i := by
          intro hcontra
          rw [hcontra] at hempty
          exact hfilled hempty
        exact TStorage.slot_fill_other hne
    · rfl
  · rfl

theorem TStorage.run_preserves_filled {s : TStorage} {i : Nat}
    (hfilled : (s.slot i).Number ≠ 0) (l : List (Nat × Nat)) :
    (s.run l).slot i = s.slot i := by
  induction l generalizing s with
  | nil => rfl
  | cons p rest ih =>
      show ((s.ProcessNext p.1 p.2).run rest).slot i = s.slot i
      have h1 := TStorage.processNext_preserves_filled hfilled p.1 p.2
      have h2 : ((s.ProcessNext p.1 p.2).slot i).Number ≠ 0 := by rw [h1]; exact hfilled
      rw [ih h2, h1]

/-! ### The reachability invariant of the result table -/

/-- Indices of the filled slots (`Storage[i].Number != 0`). -/
def TStorage.filledIdx (s : TStorage) : Finset Nat :=
  (Finset.range s.Storage.length).filter (fun i => (s.slot i).Number ≠ 0)

/-- The `arrivalOrder` values across the filled slots. -/
def TStorage.orders (s : TStorage) : Finset Nat :=
  s.filledIdx.image (fun i => (s.slot i).Order)

/-- Structural invariant of the slot array and the distinct counter. -/
structure TStorage.TableInv (s : TStorage) : Prop where
  len : s.Storage.length = s.StorageSize
  slots : ∀ i, i < s.StorageSize → (s.slot i).Number = 0 ∨ (s.slot i).Number = i + 1
  orderBound : ∀ i, i < s.StorageSize → (s.slot i).Number ≠ 0 →
      1 ≤ (s.slot i).Order ∧ (s.slot i).Order ≤ s.Counter
  orderInj : ∀ i, i < s.StorageSize → ∀ j, j < s.StorageSize →
      (s.slot i).Number ≠ 0 → (s.slot j).Number ≠ 0 →
      (s.slot i).Order = (s.slot j).Order → i = j
  count : s.Counter = s.filledIdx.card

/-- Full invariant: the table invariant plus the two directions of the
cancellation behaviour (stop is requested once the table is full, and it is
requested only when the table is full). -/
structure TStorage.Inv (s : TStorage) : Prop where
  table : s.TableInv
  stopFull : 0 < s.StorageSize → s.Counter = s.StorageSize → s.stopRequested = true
  stopOnly : s.stopRequested = true → s.Counter = s.StorageSize

theorem TStorage.slot_init (n start i : Nat) : (TStorage.init n start).slot i = default := by
  simp only [TStorage.init, TStorage.slot, List.getD]
  cases h : (List.replicate n (default : TRandomData)).get? i with
  | none => rfl
  | some a =>
      have hm := List.get?_mem h
      rw [List.eq_of_mem_replicate hm]
      rfl

theorem TStorage.filledIdx_init (n start : Nat) :
    (TStorage.init n start).filledIdx = ∅ := by
  unfold TStorage.filledIdx
  apply Finset.filter_false_of_mem
  intro i _
  rw [TStorage.slot_init]
  simp [default]

theorem TStorage.Inv.init (n start : Nat) : (TStorage.init n start).Inv := by
  refine ⟨⟨?_, ?_, ?_, ?_, ?_⟩, ?_, ?_⟩
  · simp [TStorage.init]
  · intro i _
    rw [TStorage.slot_init]
    exact Or.inl rfl
  · intro i _ hfilled
    rw [TStorage.slot_init] at hfilled
    exact absurd rfl hfilled
  · intro i _ j _ hfi _ _
    rw [TStorage.slot_init] at hfi
    exact absurd rfl hfi
  · rw [TStorage.filledIdx_init]
    rfl
  · intro hpos hfull
    exact absurd hfull.symm (Nat.ne_of_gt hpos)
  · intro hstop
    exact absurd hstop (by simp [TStorage.init])

theorem TStorage.TableInv.counter_le {s : TStorage} (h : s.TableInv) :
    s.Counter ≤ s.StorageSize := by
  calc s.Counter = s.filledIdx.card := h.count
    _ ≤ (Finset.range s.Storage.length).card := Finset.card_filter_le _ _
    _ = s.StorageSize := by rw [Finset.card_range, h.len]

/-- When the counter has reached the table size, every slot is filled. -/
theorem TStorage.TableInv.all_filled {s : TStorage} (h : s.TableInv)
    (hfull : s.Counter = s.StorageSize) :
    ∀ i, i < s.StorageSize → (s.slot i).Number ≠ 0 := by
  intro i hi
  have hsub : s.filledIdx ⊆ Finset.range s.Storage.length := Finset.filter_subset _ _
  have hcard : (Finset.range s.Storage.length).card ≤ s.filledIdx.card := by
    rw [Finset.card_range, h.len, ← h.count, hfull]
  have heq : s.filledIdx = Finset.range s.Storage.length :=
    Finset.eq_of_subset_of_card_le hsub hcard
  have hmem : i ∈ s.filledIdx := by
    rw [heq, Finset.mem_range, h.len]
    exact hi
  exact (Finset.mem_filter.mp hmem).2

theorem TStorage.applyStop_filledIdx (s : TStorage) : s.applyStop.filledIdx = s.filledIdx := by
  unfold TStorage.filledIdx
  rw [TStorage.applyStop_Storage]
  apply Finset.filter_congr
  intro i _
  rw [TStorage.applyStop_slot]

theorem TStorage.filledIdx_fill {s : TStorage} {e now : Nat}
    (hlen : e - 1 < s.Storage.length) (he : 0 < e) :
    (s.fill e now).filledIdx = insert (e - 1) s.filledIdx := by
  ext i
  simp only [TStorage.filledIdx, Finset.mem_insert, Finset.mem_filter, Finset.mem_range,
    TStorage.fill_length]
  constructor
  · rintro ⟨hi, hnum⟩
    rcases eq_or_ne (e - 1) i with heq | hne
    · exact Or.inl heq.symm
    · rw [TStorage.slot_fill_other hne] at hnum
      exact Or.inr ⟨hi, hnum⟩
  · rintro (rfl | ⟨hi, hnum⟩)
    · refine ⟨hlen, ?_⟩
      rw [TStorage.slot_fill_self hlen]
      show e ≠ 0
      omega
    · rcases eq_or_ne (e - 1) i with heq | hne
      · refine ⟨hi, ?_⟩
        rw [← heq, TStorage.slot_fill_self hlen]
        show e ≠ 0
        omega
      · refine ⟨hi, ?_⟩
        rw [TStorage.slot_fill_other hne]
        exact hnum

theorem TStorage.TableInv.fill {s : TStorage} (h : s.TableInv) {e now : Nat}
    (he : 0 < e) (heN : e ≤ s.StorageSize) (hempty : (s.slot (e - 1)).Number = 0) :
    (s.fill e now).TableInv := by
  have hlen : e - 1 < s.Storage.length := by
    rw [h.len]
    omega
  have hself := @TStorage.slot_fill_self s e now hlen
  constructor
  · rw [TStorage.fill_length, h.len, TStorage.fill_StorageSize]
  · intro i hi
    rw [TStorage.fill_StorageSize] at hi
    rcases eq_or_ne (e - 1) i with heq | hne
    · subst heq
      rw [hself]
      right
      show e = e - 1 + 1
      omega
    · rw [TStorage.slot_fill_other hne]
      exact h.slots i hi
  · intro i hi hnum
    rw [TStorage.fill_StorageSize] at hi
    rw [TStorage.fill_Counter]
    rcases eq_or_ne (e - 1) i with heq | hne
    · subst heq
      rw [hself]
      exact ⟨Nat.le_add_left 1 s.Counter, Nat.le_refl _⟩
    · rw [TStorage.slot_fill_other hne] at hnum ⊢
      have := h.orderBound i hi hnum
      omega
  · intro i hi j hj hni hnj horder
    rw [TStorage.fill_StorageSize] at hi hj
    rcases eq_or_ne (e - 1) i with heqi | hnei <;> rcases eq_or_ne (e - 1) j with heqj | hnej
    · omega
    · exfalso
      rw [TStorage.slot_fill_other hnej] at hnj horder
      rw [← heqi, hself] at horder
      have horder2 : s.Counter + 1 = (s.slot j).Order := horder
      have := h.orderBound j hj hnj
      omega
    · exfalso
      rw [TStorage.slot_fill_other hnei] at hni horder
      rw [← heqj, hself] at horder
      have horder2 : (s.slot i).Order = s.Counter + 1 := horder
      have := h.orderBound i hi hni
      omega
    · rw [TStorage.slot_fill_other hnei] at hni horder
      rw [TStorage.slot_fill_other hnej] at hnj horder
      exact h.orderInj i hi j hj hni hnj horder
  · rw [TStorage.fill_Counter, TStorage.filledIdx_fill hlen he, h.count]
    have hnotmem : e - 1 ∉ s.filledIdx := by
      intro hmem
      exact (Finset.mem_filter.mp hmem).2 hempty
    rw [Finset.card_insert_of_not_mem hnotmem]

theorem TStorage.TableInv.applyStop {s : TStorage} (h : s.TableInv) :
    s.applyStop.TableInv := by
  constructor
  · rw [TStorage.applyStop_Storage, TStorage.applyStop_StorageSize]
    exact h.len
  · intro i hi
    rw [TStorage.applyStop_StorageSize] at hi
    rw [TStorage.applyStop_slot]
    exact h.slots i hi
  · intro i hi hnum
    rw [TStorage.applyStop_StorageSize] at hi
    rw [TStorage.applyStop_slot] at hnum ⊢
    rw [TStorage.applyStop_Counter]
    exact h.orderBound i hi hnum
  · intro i hi j hj hni hnj horder
    rw [TStorage.applyStop_StorageSize] at hi hj
    simp only [TStorage.applyStop_slot] at hni hnj horder
    exact h.orderInj i hi j hj hni hnj horder
  · rw [TStorage.applyStop_Counter, TStorage.applyStop_filledIdx]
    exact h.count

/-- The three shapes one `ProcessNext` call can take: out-of-range no-op,
first arrival (fill then stop check), or duplicate (stop check only). -/
theorem TStorage.processNext_cases (s : TStorage) (e now : Nat) :
    (¬ (0 < e ∧ e ≤ s.StorageSize) ∧ s.ProcessNext e now = s) ∨
    ((0 < e ∧ e ≤ s.StorageSize) ∧ (s.slot (e - 1)).Number = 0 ∧
        s.ProcessNext e now = (s.fill e now).applyStop) ∨
    ((0 < e ∧ e ≤ s.StorageSize) ∧ (s.slot (e - 1)).Number ≠ 0 ∧
        s.ProcessNext e now = s.applyStop) := by
  by_cases hrange : 0 < e ∧ e ≤ s.StorageSize
  · by_cases hempty : (s.slot (e - 1)).Number = 0
    · refine Or.inr (Or.inl ⟨hrange, hempty, ?_⟩)
      unfold TStorage.ProcessNext
      rw [if_pos hrange, if_pos hempty]
    · refine Or.inr (Or.inr ⟨hrange, hempty, ?_⟩)
      unfold TStorage.ProcessNext
      rw [if_pos hrange, if_neg hempty]
  · refine Or.inl ⟨hrange, ?_⟩
    unfold TStorage.ProcessNext
    rw [if_neg hrange]

theorem TStorage.TableInv.stepTable {s : TStorage} (h : s.TableInv) (e now : Nat) :
    (s.ProcessNext e now).TableInv := by
  rcases TStorage.processNext_cases s e now with ⟨_, heq⟩ | ⟨hrange, hempty, heq⟩ | ⟨_, _, heq⟩
  · rw [heq]
    exact h
  · rw [heq]
    exact (h.fill hrange.1 hrange.2 hempty).applyStop
  · rw [heq]
    exact h.applyStop

theorem TStorage.Inv.stepInv {s : TStorage} (h : s.Inv) (e now : Nat) :
    (s.ProcessNext e now).Inv := by
  have htable := h.table.stepTable e now
  rcases TStorage.processNext_cases s e now with ⟨_, heq⟩ | ⟨hrange, hempty, heq⟩ |
    ⟨hrange, hfilled, heq⟩
  · rw [heq]
    exact h
  · rw [heq] at htable ⊢
    refine ⟨htable, ?_, ?_⟩
    · intro _ hfull
      rw [TStorage.applyStop_Counter, TStorage.applyStop_StorageSize] at hfull
      exact TStorage.applyStop_stopRequested_of_full hfull
    · intro hstop
      rw [TStorage.applyStop_Counter, TStorage.applyStop_StorageSize]
      by_cases hfire : (s.fill e now).Counter = (s.fill e now).StorageSize
      · exact hfire
      · rw [TStorage.applyStop_stopRequested_of_not_full hfire,
          TStorage.fill_stopRequested] at hstop
        have hfull0 := h.stopOnly hstop
        have hfilled2 := h.table.all_filled hfull0 (e - 1) (by omega)
        exact absurd hempty hfilled2
  · rw [heq] at htable ⊢
    refine ⟨htable, ?_, ?_⟩
    · intro _ hfull
      rw [TStorage.applyStop_Counter, TStorage.applyStop_StorageSize] at hfull
      exact TStorage.applyStop_stopRequested_of_full hfull
    · intro hstop
      rw [TStorage.applyStop_Counter, TStorage.applyStop_StorageSize]
      by_cases hfire : s.Counter = s.StorageSize
      · exact hfire
      · rw [TStorage.applyStop_stopRequested_of_not_full hfire] at hstop
        exact h.stopOnly hstop

theorem TStorage.Inv.runList {s : TStorage} (h : s.Inv) (l : List (Nat × Nat)) :
    (s.run l).Inv := by
  induction l generalizing s with
  | nil => exact h
  | cons p rest ih =>
      show ((s.ProcessNext p.1 p.2).run rest).Inv
      exact ih (h.stepInv p.1 p.2)

/-- Every state reachable from a freshly constructed table satisfies the
invariant. -/
theorem TStorage.Inv.reachable (n start : Nat) (l : List (Nat × Nat)) :
    ((TStorage.init n start).run l).Inv :=
  (TStorage.Inv.init n start).runList l

/-- In an invariant state the `Order` values of the filled slots are exactly
`1, …, Counter`. -/
theorem TStorage.TableInv.orders_eq {s : TStorage} (h : s.TableInv) :
    s.orders = Finset.Icc 1 s.Counter := by
  have hsub : s.orders ⊆ Finset.Icc 1 s.Counter := by
    intro k hk
    rcases Finset.mem_image.mp hk with ⟨i, hi, rfl⟩
    have hmem := Finset.mem_filter.mp hi
    have hilen : i < s.StorageSize := by
      rw [← h.len]
      exact Finset.mem_range.mp hmem.1
    exact Finset.mem_Icc.mpr (h.orderBound i hilen hmem.2)
  have hinj : Set.InjOn (fun i => (s.slot i).Order) s.filledIdx := by
    intro i hi j hj hij
    have hmi := Finset.mem_filter.mp (Finset.mem_coe.mp hi)
    have hmj := Finset.mem_filter.mp (Finset.mem_coe.mp hj)
    have hilen : i < s.StorageSize := by
      rw [← h.len]
      exact Finset.mem_range.mp hmi.1
    have hjlen : j < s.StorageSize := by
      rw [← h.len]
      exact Finset.mem_range.mp hmj.1
    exact h.orderInj i hilen j hjlen hmi.2 hmj.2 hij
  have hcard : s.orders.card = s.Counter := by
    rw [TStorage.orders, Finset.card_image_of_injOn hinj, ← h.count]
  apply Finset.eq_of_subset_of_card_le hsub
  rw [hcard, Nat.card_Icc]
  omega

/-! ### Claim theorems -/

/-- C1: the claim says a blocked `SaveIntoQueue` returns a Cancelled signal
without enqueuing when cancellation fires.  In the code the boolean result of
the cancellable wait is discarded and the function returns `void`, so when
stop is requested while the queue already holds `MaxQueueSize` elements, the
completed call pushes the element anyway: the queue is changed and grows to
`MaxQueueSize + 1` entries. -/
theorem saveIntoQueue_on_cancel_enqueues_anyway :
    ∃ q1, SaveIntoQueue (List.replicate MaxQueueSize 1) 2 true = some q1 ∧
      q1.length = MaxQueueSize + 1 ∧ q1 ≠ List.replicate MaxQueueSize 1 := by
  refine ⟨List.replicate MaxQueueSize 1 ++ [2], ?_, ?_, ?_⟩
  · simp [SaveIntoQueue]
  · simp
  · intro hcontra
    have hlen := congrArg List.length hcontra
    simp at hlen

/-- C2: the claim says a blocked `GetFromQueue` returns Cancelled when
cancellation fires on an empty queue, so the head is never read while the
queue is empty.  In the code the result of the cancellable wait is discarded:
with stop requested and the queue empty, execution reaches
`Queue.front()` / `Queue.pop()` on the empty queue (undefined behavior), the
branch the claim calls unreachable. -/
theorem getFromQueue_on_cancel_pops_empty :
    GetFromQueue [] true = some PopOutcome.emptyFront := rfl

/-- C3: the claim says the queue length never exceeds `MaxQueueSize`.  A
`SaveIntoQueue` call completed because stop was requested while the queue was
already full pushes anyway, producing a queue of length `MaxQueueSize + 1`. -/
theorem queue_capacity_exceeded_on_cancel :
    ∃ q1, SaveIntoQueue (List.replicate MaxQueueSize 0) 5 true = some q1 ∧
      MaxQueueSize < q1.length := by
  refine ⟨List.replicate MaxQueueSize 0 ++ [5], ?_, ?_⟩
  · simp [SaveIntoQueue]
  · simp

/-- C4: a value `v` in `[1, N]` has an observable effect at most once: the
first call with `v` (slot still empty) writes `v` into the slot and increments
the counter, and the written slot survives any later sequence of calls
unchanged; every call with `v` finding the slot filled leaves the slot array
and the counter exactly as they were. -/
theorem processNext_at_most_once (s : TStorage) (v now : Nat)
    (hv : 0 < v) (hvN : v ≤ s.StorageSize) (hlen : s.Storage.length = s.StorageSize) :
    ((s.slot (v - 1)).Number = 0 →
        ((s.ProcessNext v now).slot (v - 1)).Number = v ∧
        (s.ProcessNext v now).Counter = s.Counter + 1 ∧
        (∀ l, ((s.ProcessNext v now).run l).slot (v - 1)
            = (s.ProcessNext v now).slot (v - 1))) ∧
    ((s.slot (v - 1)).Number ≠ 0 →
        (s.ProcessNext v now).Storage = s.Storage ∧
        (s.ProcessNext v now).Counter = s.Counter) := by
  have hidx : v - 1 < s.Storage.length := by
    rw [hlen]
    omega
  constructor
  · intro hempty
    rcases TStorage.processNext_cases s v now with ⟨hr, _⟩ | ⟨_, _, heq⟩ | ⟨_, hf, _⟩
    · exact absurd ⟨hv, hvN⟩ hr
    · rw [heq]
      have hslot : ((s.fill v now).applyStop.slot (v - 1)).Number = v := by
        rw [TStorage.applyStop_slot, TStorage.slot_fill_self hidx]
      refine ⟨hslot, ?_, ?_⟩
      · rw [TStorage.applyStop_Counter, TStorage.fill_Counter]
      · intro l
        apply TStorage.run_preserves_filled
        rw [hslot]
        omega
    · exact absurd hempty hf
  · intro hfilled
    rcases TStorage.processNext_cases s v now with ⟨hr, _⟩ | ⟨_, he, _⟩ | ⟨_, _, heq⟩
    · exact absurd ⟨hv, hvN⟩ hr
    · exact absurd he hfilled
    · rw [heq]
      exact ⟨TStorage.applyStop_Storage s, TStorage.applyStop_Counter s⟩

theorem processNext_at_most_once_witness :
    (0 < 2 ∧ 2 ≤ (TStorage.init 3 0).StorageSize ∧
      (TStorage.init 3 0).Storage.length = (TStorage.init 3 0).StorageSize) ∧
    ((((TStorage.init 3 0).slot (2 - 1)).Number = 0 →
        (((TStorage.init 3 0).ProcessNext 2 5).slot (2 - 1)).Number = 2 ∧
        ((TStorage.init 3 0).ProcessNext 2 5).Counter = (TStorage.init 3 0).Counter + 1 ∧
        (∀ l, (((TStorage.init 3 0).ProcessNext 2 5).run l).slot (2 - 1)
            = ((TStorage.init 3 0).ProcessNext 2 5).slot (2 - 1))) ∧
      (((TStorage.init 3 0).slot (2 - 1)).Number ≠ 0 →
        ((TStorage.init 3 0).ProcessNext 2 5).Storage = (TStorage.init 3 0).Storage ∧
        ((TStorage.init 3 0).ProcessNext 2 5).Counter = (TStorage.init 3 0).Counter)) :=
  ⟨⟨by decide, by decide, by decide⟩,
    processNext_at_most_once (TStorage.init 3 0) 2 5 (by decide) (by decide) (by decide)⟩

/-- C5: on every state reachable from a fresh table of positive target size
`N`, the distinct counter never exceeds `N`; the moment it reaches `N` the
stop state is requested; the stop state is requested only when the counter
has reached `N` (so the request happens exactly once, right after the `N`-th
distinct value is filled); and once requested it is never reset by any
further calls. -/
theorem storage_counter_bound_and_stop (N t : Nat) (l : List (Nat × Nat)) (hN : 0 < N) :
    ((TStorage.init N t).run l).Counter ≤ N ∧
    (((TStorage.init N t).run l).Counter = N →
        ((TStorage.init N t).run l).stopRequested = true) ∧
    (((TStorage.init N t).run l).stopRequested = true →
        ((TStorage.init N t).run l).Counter = N) ∧
    (∀ l2, ((TStorage.init N t).run l).stopRequested = true →
        (((TStorage.init N t).run l).run l2).stopRequested = true) := by
  have hinv := TStorage.Inv.reachable N t l
  have hsize : ((TStorage.init N t).run l).StorageSize = N := by
    rw [TStorage.run_StorageSize]
    rfl
  refine ⟨?_, ?_, ?_, ?_⟩
  · have hle := hinv.table.counter_le
    rw [hsize] at hle
    exact hle
  · intro hfull
    refine hinv.stopFull ?_ ?_
    · rw [hsize]
      exact hN
    · rw [hsize]
      exact hfull
  · intro hstop
    have hfull := hinv.stopOnly hstop
    rw [hsize] at hfull
    exact hfull
  · intro l2 hstop
    exact TStorage.run_stop_mono hstop l2

theorem storage_counter_bound_and_stop_witness :
    0 < 1 ∧
    (((TStorage.init 1 0).run [(1, 3)]).Counter ≤ 1 ∧
      (((TStorage.init 1 0).run [(1, 3)]).Counter = 1 →
          ((TStorage.init 1 0).run [(1, 3)]).stopRequested = true) ∧
      (((TStorage.init 1 0).run [(1, 3)]).stopRequested = true →
          ((TStorage.init 1 0).run [(1, 3)]).Counter = 1) ∧
      (∀ l2, ((TStorage.init 1 0).run [(1, 3)]).stopRequested = true →
          (((TStorage.init 1 0).run [(1, 3)]).run l2).stopRequested = true)) :=
  ⟨by decide, storage_counter_bound_and_stop 1 0 [(1, 3)] (by decide)⟩

/-- C6: on every state reachable from a fresh table, the filled slots are
counted by the distinct counter, and their `Order` values form exactly the
set `{1, …, Counter}` (no gaps, no repeats — with as many filled slots as
order values); in particular once all `N` slots are filled the orders are a
permutation of `1..N`. -/
theorem storage_orders_range (N t : Nat) (l : List (Nat × Nat)) :
    ((TStorage.init N t).run l).filledIdx.card = ((TStorage.init N t).run l).Counter ∧
    ((TStorage.init N t).run l).orders
        = Finset.Icc 1 ((TStorage.init N t).run l).Counter ∧
    (((TStorage.init N t).run l).Counter = N →
        ((TStorage.init N t).run l).orders = Finset.Icc 1 N) := by
  have hinv := TStorage.Inv.reachable N t l
  refine ⟨hinv.table.count.symm, hinv.table.orders_eq, ?_⟩
  intro hfull
  rw [hinv.table.orders_eq, hfull]

/-- C7: the concrete example — a table of size 3 fed 2, 2, 1, 3: value 1
gets order 2, value 2 order 1, value 3 order 3, the counter ends at 3, stop
is requested only after the 3 arrives, and the duplicate second 2 changes
nothing. -/
theorem storage_example_2_2_1_3 :
    (((TStorage.init 3 100).run [(2, 110), (2, 120), (1, 130), (3, 140)]).slot 0).Number = 1 ∧
    (((TStorage.init 3 100).run [(2, 110), (2, 120), (1, 130), (3, 140)]).slot 0).Order = 2 ∧
    (((TStorage.init 3 100).run [(2, 110), (2, 120), (1, 130), (3, 140)]).slot 1).Number = 2 ∧
    (((TStorage.init 3 100).run [(2, 110), (2, 120), (1, 130), (3, 140)]).slot 1).Order = 1 ∧
    (((TStorage.init 3 100).run [(2, 110), (2, 120), (1, 130), (3, 140)]).slot 2).Number = 3 ∧
    (((TStorage.init 3 100).run [(2, 110), (2, 120), (1, 130), (3, 140)]).slot 2).Order = 3 ∧
    ((TStorage.init 3 100).run [(2, 110), (2, 120), (1, 130), (3, 140)]).Counter = 3 ∧
    ((TStorage.init 3 100).run [(2, 110), (2, 120), (1, 130), (3, 140)]).stopRequested = true ∧
    ((TStorage.init 3 100).run [(2, 110), (2, 120), (1, 130)]).stopRequested = false ∧
    ((TStorage.init 3 100).run [(2, 110), (2, 120)]).Storage
        = ((TStorage.init 3 100).run [(2, 110)]).Storage ∧
    ((TStorage.init 3 100).run [(2, 110), (2, 120)]).Counter
        = ((TStorage.init 3 100).run [(2, 110)]).Counter ∧
    ((TStorage.init 3 100).run [(2, 110), (2, 120)]).stopRequested
        = ((TStorage.init 3 100).run [(2, 110)]).stopRequested ∧
    ((TStorage.init 3 100).run [(2, 110), (2, 120)]).Start
        = ((TStorage.init 3 100).run [(2, 110)]).Start := by
  decide

/-- C8: an element outside `[1, StorageSize]` (0, or greater than the size)
fails the boundary test and the call returns with the whole state — every
slot, the counter and the stop flag — exactly as it was. -/
theorem processNext_out_of_range_noop (s : TStorage) (v now : Nat)
    (h : ¬ (0 < v ∧ v ≤ s.StorageSize)) : s.ProcessNext v now = s := by
  unfold TStorage.ProcessNext
  rw [if_neg h]

theorem processNext_out_of_range_noop_witness :
    (TStorage.init 3 7).ProcessNext 0 50 = TStorage.init 3 7 ∧
    (TStorage.init 3 7).ProcessNext 4 50 = TStorage.init 3 7 :=
  ⟨processNext_out_of_range_noop (TStorage.init 3 7) 0 50 (by decide),
   processNext_out_of_range_noop (TStorage.init 3 7) 4 50 (by decide)⟩

/-- C9 counterexample: constructing the table with the non-positive target
size 0 does not fail — the constructor validates nothing, has no failure
path, and yields an ordinary (empty) table. -/
theorem tstorage_init_zero_constructs :
    (TStorage.init 0 0).Storage = [] ∧ (TStorage.init 0 0).StorageSize = 0 ∧
    (TStorage.init 0 0).Counter = 0 ∧ (TStorage.init 0 0).stopRequested = false :=
  ⟨rfl, rfl, rfl, rfl⟩

/-- C9 (amended): the target-size validation lives in `main`, not in the
constructors: any non-positive or over-`RAND_MAX` argument is rejected there,
before the queue, the table or the randomizer are constructed and before any
thread is spawned. -/
theorem mainCheck_rejects_bad_argument (n : Int) (start : Nat)
    (h : n ≤ 0 ∨ RAND_MAX < n) : mainCheck n start = MainOutcome.badArgument := by
  unfold mainCheck
  rw [if_pos h]

theorem mainCheck_rejects_bad_argument_witness :
    ((-5 : Int) ≤ 0 ∨ RAND_MAX < (-5 : Int)) ∧
    mainCheck (-5) 0 = MainOutcome.badArgument :=
  ⟨by decide, mainCheck_rejects_bad_argument (-5) 0 (by decide)⟩

/-- C10: on every state reachable from a fresh table of size `N`, the slot at
index `i < N` holds `Number = 0` (still empty) or `Number = i + 1` (exactly
the value that maps to this index); a filled slot can therefore never hold
the sentinel value 0. -/
theorem storage_slot_zero_or_index (N t : Nat) (l : List (Nat × Nat)) (i : Nat)
    (hi : i < N) :
    (((TStorage.init N t).run l).slot i).Number = 0 ∨
    (((TStorage.init N t).run l).slot i).Number = i + 1 := by
  have hinv := TStorage.Inv.reachable N t l
  apply hinv.table.slots
  rw [TStorage.run_StorageSize]
  exact hi

theorem storage_slot_zero_or_index_witness :
    0 < 2 ∧
    ((((TStorage.init 2 0).run [(1, 9)]).slot 0).Number = 0 ∨
      (((TStorage.init 2 0).run [(1, 9)]).slot 0).Number = 0 + 1) :=
  ⟨by decide, storage_slot_zero_or_index 2 0 [(1, 9)] 0 (by decide)⟩
